import Mathlib

/-!
Shallow embedding of `src/commisery_action.py` (commisery-action CLI wrapper).

Strings are modelled as `List Char`.  On the POSIX platforms the action runs
on, `os.linesep` is the single character `'\n'`, so `convert_to_multiline`
replaces each `'\n'` with the three characters `"%0A"`.

The external executable `commisery-verify-msg` is not part of this
repository; it is modelled as an oracle (`Checker`): a deterministic map
from the content of the file it is given to a process return code and the
bytes it writes to stderr.

The process-visible state carried through the embedding records the one
file the wrapper touches (`commit_message` in the working directory) and
the sequence of lines printed to stdout.
-/

namespace Commisery

/-- `convert_to_multiline`: `text.replace(os.linesep, "%0A")` with
`os.linesep = "\n"`. -/
def convertToMultiline : List Char → List Char
  | [] => []
  | c :: rest =>
      if c = '\n' then '%' :: '0' :: 'A' :: convertToMultiline rest
      else c :: convertToMultiline rest

/-- Helper for the regex `\x1b\[(K|.*?m)`: the lazy branch `.*?m` matches
the shortest run of non-newline characters ending in `'m'`.  Returns the
suffix after that `'m'`, or `none` when a `'\n'` or the end of the input is
reached first (in Python `.` does not match a newline). -/
def skipToM : List Char → Option (List Char)
  | [] => none
  | c :: rest =>
      if c = '\n' then none
      else if c = 'm' then some rest
      else skipToM rest

/-- `strip_ansicolors`: `re.sub("\x1b\\[(K|.*?m)", "", text)`.  `re.sub`
scans left to right; at an occurrence of `ESC [` the ordered alternation
first tries the literal `K`, then the lazy `.*?m`; on failure the scan
moves forward one character. -/
def stripAnsicolors : List Char → List Char
  | [] => []
  | '\x1b' :: '[' :: 'K' :: rest => stripAnsicolors rest
  | '\x1b' :: '[' :: rest =>
      match h : skipToM rest with
      | some rest2 => stripAnsicolors rest2
      | none => '\x1b' :: stripAnsicolors ('[' :: rest)
  | c :: rest => c :: stripAnsicolors rest
termination_by l => l.length
decreasing_by
  · simp; omega
  · have key : ∀ (l r : List Char), skipToM l = some r → r.length < l.length := by
      intro l
      induction l with
      | nil => intro r hr; simp [skipToM] at hr
      | cons c cs ih =>
          intro r hr
          simp only [skipToM] at hr
          split at hr
          · exact absurd hr (by simp)
          · split at hr
            · cases hr; simp
            · have := ih _ hr
              simp
              omega
    have := key _ _ h
    simp
    omega
  · simp
  · simp

/-- Process-visible state of one run of the wrapper: the single file the
wrapper writes (`commit_message` in the working directory; `none` when it
does not exist yet) and the lines printed to stdout so far. -/
@[ext]
structure FsState where
  file : Option (List Char)
  output : List (List Char)
deriving DecidableEq

/-- Oracle for the external executable `commisery-verify-msg` (not part of
this repository): a deterministic map from the content of the file passed
to it to its process return code and the bytes it writes to stderr. -/
structure Checker where
  returncode : List Char → Int
  stderr : List Char → List Char

/-- `error_message`: the single stdout line
`f"::error::{strip_ansicolors(convert_to_multiline(message))}"`. -/
def errorMessage (message : List Char) : List Char :=
  ("::error::".data) ++ stripAnsicolors (convertToMultiline message)

/-- `message_to_file`: writes the message to the fixed file name
`commit_message` (mode `"w+"` creates or truncates) and returns that
file name. -/
def messageToFile (message : List Char) (s : FsState) : List Char × FsState :=
  ("commit_message".data, { file := some message, output := s.output })

/-- `check_message`: writes the message to the file, runs the checker on
that file's content, and on a strictly positive return code prints one
`::error::` line built from the checker's stderr and returns `false`;
otherwise returns `true`. -/
def checkMessage (c : Checker) (message : List Char) (s : FsState) :
    Bool × FsState :=
  let fs := messageToFile message s
  let s1 := fs.2
  let content := s1.file.getD []
  let rc := c.returncode content
  let err := c.stderr content
  if rc > 0 then
    (false, { s1 with output := s1.output ++ [errorMessage err] })
  else
    (true, s1)

/-- The verdict `check_message` reaches for a message: `false` exactly when
the checker's return code is strictly positive. -/
def msgValid (c : Checker) (message : List Char) : Bool :=
  if c.returncode message > 0 then false else true

/-- The stdout lines one `check_message` call appends: one `::error::`
line when the message fails, nothing when it passes. -/
def annotOf (c : Checker) (message : List Char) : List (List Char) :=
  if msgValid c message then [] else [errorMessage (c.stderr message)]

/-- The `for commit in commits` loop of `main`: folds `check_message` over
the messages, incrementing the error counter on each `false` verdict. -/
def processMessages (c : Checker) (msgs : List (List Char))
    (acc : Nat × FsState) : Nat × FsState :=
  msgs.foldl (fun p m =>
    let r := checkMessage c m p.2
    (if r.1 then p.1 else p.1 + 1, r.2)) acc

/-- `main` after the GitHub API calls: checks the pull-request title, then
every commit message in order, and exits with `1 if errors else 0`. -/
def mainRun (c : Checker) (title : List Char) (commits : List (List Char))
    (s : FsState) : Nat × FsState :=
  let r0 := checkMessage c title s
  let e0 : Nat := if r0.1 then 0 else 1
  let res := processMessages c commits (e0, r0.2)
  ((if res.1 ≠ 0 then 1 else 0), res.2)

/-- State of a fresh working directory: no `commit_message` file yet and
nothing printed. -/
def emptyState : FsState :=
  { file := none, output := [] }

/-- A checker that accepts every message (return code `0`, empty stderr). -/
def checkerPass : Checker :=
  { returncode := fun _ => 0, stderr := fun _ => [] }

/-- A checker that rejects every message with return code `1` and a fixed
stderr text. -/
def checkerFail : Checker :=
  { returncode := fun _ => 1, stderr := fun _ => "not compliant".data }

/-- A checker that dies on a signal for every message: `subprocess` then
reports the negative return code `-9`. -/
def checkerSignal : Checker :=
  { returncode := fun _ => -9, stderr := fun _ => "killed".data }

/-- Modelled from the spec: the Rule Validator (§4.2) lives in the external
`commisery` package, not in this repository.  Per message it produces a
list of error-severity Findings; here only their rendered texts matter. -/
structure Validator where
  errorFindings : List Char → List (List Char)

/-- Modelled from the spec: the external checker process reports failure
(a positive return code) exactly when the Rule Validator found at least
one error-severity Finding, and renders the findings one per stderr line. -/
def checkerOfValidator (v : Validator) : Checker :=
  { returncode := fun m => if (v.errorFindings m).length = 0 then 0 else 1,
    stderr := fun m => List.intercalate ['\n'] (v.errorFindings m) }

/-- A validator that reports two distinct error Findings for every
message. -/
def validatorTwoFindings : Validator :=
  { errorFindings := fun _ => ["e1".data, "e2".data] }

/-- Closed form of one `check_message` call: the verdict depends only on
the checker and the message, the file always ends up holding the message,
and stdout grows by exactly the annotations `annotOf` describes. -/
theorem checkMessage_eq (c : Checker) (m : List Char) (s : FsState) :
    checkMessage c m s =
      (msgValid c m,
       { file := some m, output := s.output ++ annotOf c m }) := by
  simp only [checkMessage, messageToFile, msgValid, annotOf, Option.getD_some]
  split
  · simp_all
  · simp_all

/-- Closed form of the commit loop: final error count, stdout and file. -/
theorem processMessages_eq (c : Checker) (msgs : List (List Char)) :
    ∀ (e : Nat) (s : FsState),
      processMessages c msgs (e, s) =
        (e + msgs.countP (fun m => !msgValid c m),
         { file := (msgs.getLast?).elim s.file some,
           output := s.output ++ (msgs.map (annotOf c)).flatten }) := by
  induction msgs with
  | nil => intro e s; simp [processMessages]
  | cons m rest ih =>
      intro e s
      simp only [processMessages, List.foldl_cons] at *
      rw [checkMessage_eq]
      have hfile : ∀ t : FsState,
          (rest.getLast?).elim (some m : Option (List Char)) some =
            ((m :: rest).getLast?).elim t.file some := by
        intro t
        cases rest with
        | nil => simp
        | cons a as =>
            obtain ⟨b, hb⟩ := Option.isSome_iff_exists.mp
              (List.getLast?_isSome.mpr (by simp : (a :: as) ≠ []))
            rw [List.getLast?_cons_cons, hb]
            simp
      rcases hv : msgValid c m with _ | _
      · rw [ih]
        simp only [List.countP_cons, hv, List.map_cons, List.flatten_cons]
        refine Prod.ext (by simp; omega) (FsState.ext ?_ (by simp))
        simpa using hfile s
      · rw [ih]
        simp only [List.countP_cons, hv, List.map_cons, List.flatten_cons]
        refine Prod.ext (by simp) (FsState.ext ?_ (by simp [annotOf, hv]))
        simpa using hfile s

/-- `skipToM` returns a suffix of its input. -/
theorem skipToM_suffix : ∀ {l r : List Char}, skipToM l = some r → r <:+ l := by
  intro l
  induction l with
  | nil => intro r h; simp [skipToM] at h
  | cons c cs ih =>
      intro r h
      simp only [skipToM] at h
      split at h
      · exact absurd h (by simp)
      · split at h
        · cases h; exact List.suffix_cons c cs
        · exact (ih h).trans (List.suffix_cons c cs)

/-- Every character of the stripped string occurs in the input: the
substitution only deletes characters. -/
theorem stripAnsicolors_mem :
    ∀ {l : List Char} {a : Char}, a ∈ stripAnsicolors l → a ∈ l := by
  intro l
  induction l using stripAnsicolors.induct with
  | case1 => intro a h; simp [stripAnsicolors] at h
  | case2 rest ih =>
      intro a h
      rw [stripAnsicolors.eq_2] at h
      simp [List.mem_cons, ih h]
  | case3 rest hK rest2 hskip ih =>
      intro a h
      rw [stripAnsicolors.eq_3 _ (by intro r1 hr1; exact hK r1 hr1)] at h
      split at h
      · rename_i r2 hr2
        rw [hskip] at hr2
        cases hr2
        have := (skipToM_suffix hskip).subset (ih h)
        simp [List.mem_cons, this]
      · rename_i hr2
        rw [hskip] at hr2
        cases hr2
  | case4 rest hK hskip ih =>
      intro a h
      rw [stripAnsicolors.eq_3 _ (by intro r1 hr1; exact hK r1 hr1)] at h
      split at h
      · rename_i r2 hr2
        rw [hskip] at hr2
        cases hr2
      · rcases List.mem_cons.mp h with h1 | h1
        · simp [h1]
        · have := ih h1
          rcases List.mem_cons.mp this with h2 | h2
          · simp [h2]
          · simp [List.mem_cons, h2]
  | case5 c rest h1 h2 ih =>
      intro a h
      rw [stripAnsicolors.eq_4 c rest h1 h2] at h
      rcases List.mem_cons.mp h with h3 | h3
      · simp [h3]
      · simp [List.mem_cons, ih h3]

/-- The output of `convert_to_multiline` contains no `'\n'`: every newline
became the three characters `%0A`. -/
theorem convertToMultiline_no_newline :
    ∀ (l : List Char), '\n' ∉ convertToMultiline l := by
  intro l
  induction l with
  | nil => simp [convertToMultiline]
  | cons c rest ih =>
      simp only [convertToMultiline]
      split
      · intro h
        simp only [List.mem_cons] at h
        rcases h with h | h | h | h
        · exact absurd h (by decide)
        · exact absurd h (by decide)
        · exact absurd h (by decide)
        · exact ih h
      · rename_i hc
        intro h
        simp only [List.mem_cons] at h
        rcases h with h | h
        · exact hc h.symm
        · exact ih h

/-- When the characters before the `'m'` contain no newline and no `'m'`,
the lazy branch stops exactly at that `'m'`. -/
theorem skipToM_append (params rest : List Char)
    (hp : ∀ a ∈ params, a ≠ '\n' ∧ a ≠ 'm') :
    skipToM (params ++ 'm' :: rest) = some rest := by
  induction params with
  | nil => simp [skipToM]
  | cons c cs ih =>
      have hc := hp c (by simp)
      simp only [List.cons_append, skipToM, hc.1, hc.2, if_false]
      exact ih (fun a ha => hp a (by simp [ha]))

/-- A full SGR (color) escape sequence `ESC [ params m` whose parameter
characters contain no newline, no `'m'`, and do not start with `'K'`, is
removed entirely by `strip_ansicolors`. -/
theorem stripAnsicolors_sgr (params rest : List Char)
    (hp : ∀ a ∈ params, a ≠ '\n' ∧ a ≠ 'm') (hK : params.head? ≠ some 'K') :
    stripAnsicolors ('\x1b' :: '[' :: (params ++ 'm' :: rest)) =
      stripAnsicolors rest := by
  have hskip := skipToM_append params rest hp
  have hne : ∀ r1 : List Char, params ++ 'm' :: rest = 'K' :: r1 → False := by
    intro r1 hr1
    cases params with
    | nil =>
        simp only [List.nil_append, List.cons.injEq] at hr1
        exact absurd hr1.1 (by decide)
    | cons c cs =>
        simp only [List.cons_append, List.cons.injEq] at hr1
        exact hK (by simp [hr1.1])
  rw [stripAnsicolors.eq_3 _ hne]
  split
  · rename_i r2 hr2
    rw [hskip] at hr2
    cases hr2
    rfl
  · rename_i hr2
    rw [hskip] at hr2
    cases hr2

/-- The emitted `::error::` line never contains an OS line separator. -/
theorem errorMessage_no_newline (msg : List Char) :
    '\n' ∉ errorMessage msg := by
  intro h
  rcases List.mem_append.mp h with h1 | h1
  · revert h1; decide
  · exact convertToMultiline_no_newline msg (stripAnsicolors_mem h1)

/-- C1: for every run of `main` over a pull-request title and its commit
messages, the process exit code is `0` when every message is valid (zero
failing messages) and the nonzero value `1` otherwise. -/
theorem C1_exit_zero_iff_all_valid (c : Checker) (t : List Char)
    (cs : List (List Char)) (s : FsState) :
    ((mainRun c t cs s).1 = 0 ↔
      (msgValid c t = true ∧ ∀ m ∈ cs, msgValid c m = true)) ∧
    ((mainRun c t cs s).1 = 0 ∨ (mainRun c t cs s).1 = 1) := by
  simp only [mainRun, checkMessage_eq, processMessages_eq]
  rcases hv : msgValid c t with _ | _
  · simp [List.countP_eq_zero]
  · simp [List.countP_eq_zero]
    rcases Decidable.em (∀ x ∈ cs, msgValid c x = true) with hall | hall
    · exact Or.inl hall
    · right
      push_neg at hall
      obtain ⟨x, hx, hxf⟩ := hall
      exact ⟨x, hx, by simpa using hxf⟩

/-- C2: the error counter of `main` counts the failures of every input
message (title first, then every commit message) — no early stop — every
message contributes its own annotation block in order, and the exit code
is `0` exactly when the conjunction of all per-message verdicts holds. -/
theorem C2_every_message_evaluated (c : Checker) (t : List Char)
    (cs : List (List Char)) (s : FsState) :
    (mainRun c t cs s).1 =
      (if (t :: cs).countP (fun m => !msgValid c m) ≠ 0 then 1 else 0) ∧
    (mainRun c t cs s).2.output =
      s.output ++ ((t :: cs).map (annotOf c)).flatten ∧
    ((mainRun c t cs s).1 = 0 ↔ (t :: cs).all (msgValid c) = true) := by
  simp only [mainRun, checkMessage_eq, processMessages_eq, List.countP_cons,
    List.map_cons, List.flatten_cons, List.all_cons]
  rcases hv : msgValid c t with _ | _
  · simp [annotOf, hv]
  · simp [annotOf, hv, List.countP_eq_zero, List.all_eq_true]

/-- C3: the commit-message loop applied to an empty sequence of messages
adds no errors and changes nothing, so the computed exit code is `0`. -/
theorem C3_empty_sequence_valid (c : Checker) (s : FsState) :
    processMessages c [] (0, s) = (0, s) ∧
    (if (processMessages c [] (0, s)).1 ≠ 0 then 1 else 0) = 0 := by
  simp [processMessages]

/-- The annotation blocks of a message list flatten to one stdout line per
failing message. -/
theorem annotOf_flatten_length (c : Checker) :
    ∀ (msgs : List (List Char)),
      ((msgs.map (annotOf c)).flatten).length =
        msgs.countP (fun m => !msgValid c m) := by
  intro msgs
  induction msgs with
  | nil => simp
  | cons m rest ih =>
      simp only [List.map_cons, List.flatten_cons, List.countP_cons,
        List.length_append, ih, annotOf]
      rcases hv : msgValid c m with _ | _ <;> simp [hv] <;> omega

/-- C4: the claim that validation touches no file fails on the code —
validating a message in a fresh working directory changes the
`commit_message` file. -/
theorem C4_counterexample :
    (checkMessage checkerPass ("feat: x".data) emptyState).2.file ≠
      emptyState.file := by
  simp [checkMessage_eq, emptyState]

/-- C4 (amended): validating a message always writes the message text to
the fixed file `commit_message` (creating or truncating it) before the
external checker runs; the text reaches the checker through that file. -/
theorem C4_amended_writes_file (c : Checker) (m : List Char) (s : FsState) :
    (checkMessage c m s).2.file = some m := by
  simp [checkMessage_eq]

/-- C5: a failing checker run (strictly positive return code) is converted
into the value `false` together with one reported `::error::` line; the
caller receives an ordinary result, not an exception (the embedding of
`check_message` is a total function). -/
theorem C5_failure_reported_not_thrown (c : Checker) (m : List Char)
    (s : FsState) (h : c.returncode m > 0) :
    checkMessage c m s =
      (false,
       { file := some m,
         output := s.output ++ [errorMessage (c.stderr m)] }) := by
  rw [checkMessage_eq]
  simp [msgValid, annotOf, h]

/-- Witness for C5 at a concrete malformed message and failing checker. -/
theorem C5_witness :
    checkerFail.returncode ("Added login".data) > 0 ∧
    checkMessage checkerFail ("Added login".data) emptyState =
      (false,
       { file := some ("Added login".data),
         output := emptyState.output ++
           [errorMessage (checkerFail.stderr ("Added login".data))] }) :=
  ⟨by decide,
   C5_failure_reported_not_thrown checkerFail ("Added login".data) emptyState
     (by decide)⟩

/-- C6: the claim that one annotation line is emitted per error-severity
Finding fails — a message with two error Findings still produces a single
`::error::` line. -/
theorem C6_counterexample :
    (mainRun (checkerOfValidator validatorTwoFindings) ("feat: x".data) []
        emptyState).2.output.length ≠
      (validatorTwoFindings.errorFindings ("feat: x".data)).length := by
  simp [mainRun, checkMessage_eq, processMessages_eq, annotOf, msgValid,
    checkerOfValidator, validatorTwoFindings, emptyState]

/-- C6 (amended): exactly one annotation line is emitted per failing
message; a failing message's error Findings are aggregated into that one
line, so the stdout line count grows by the number of failing messages. -/
theorem C6_amended_one_annotation_per_failing_message (c : Checker)
    (t : List Char) (cs : List (List Char)) (s : FsState) :
    (mainRun c t cs s).2.output.length =
      s.output.length + (t :: cs).countP (fun m => !msgValid c m) := by
  simp only [mainRun, checkMessage_eq, processMessages_eq, List.countP_cons,
    List.length_append, annotOf_flatten_length]
  rcases hv : msgValid c t with _ | _ <;> simp [annotOf, hv] <;> omega

/-- C7: validation is idempotent and deterministic — re-validating the same
message yields the same verdict, the same file content, and appends the
identical annotation block that the first validation appended. -/
theorem C7_idempotent_deterministic (c : Checker) (m : List Char)
    (s : FsState) :
    (checkMessage c m s).1 = (checkMessage c m (checkMessage c m s).2).1 ∧
    (checkMessage c m s).2.file =
      (checkMessage c m (checkMessage c m s).2).2.file ∧
    (checkMessage c m s).2.output = s.output ++ annotOf c m ∧
    (checkMessage c m (checkMessage c m s).2).2.output =
      (checkMessage c m s).2.output ++ annotOf c m := by
  simp [checkMessage_eq]

/-- C8: the claim that the emitted annotation contains no ANSI escape
sequence fails — the erase-display code `ESC[2J` is not matched by the
stripping regex and survives into the `::error::` line. -/
theorem C8_counterexample :
    '\x1b' ∈ errorMessage ['\x1b', '[', '2', 'J'] := by
  simp [errorMessage, convertToMultiline, stripAnsicolors, skipToM]

/-- C8 (amended): the emitted annotation line contains no OS line-separator
character (each `'\n'` became the literal `%0A`), and the stripping pass
removes every color code `ESC[...m` (parameters without newline or `'m'`,
not starting with `'K'`) and the erase-line code `ESC[K`; other ANSI escape
sequences may survive. -/
theorem C8_amended_no_linesep_colors_stripped (msg params rest : List Char)
    (hp : ∀ a ∈ params, a ≠ '\n' ∧ a ≠ 'm')
    (hK : params.head? ≠ some 'K') :
    '\n' ∉ errorMessage msg ∧
    stripAnsicolors ('\x1b' :: '[' :: (params ++ 'm' :: rest)) =
      stripAnsicolors rest ∧
    stripAnsicolors ('\x1b' :: '[' :: 'K' :: rest) = stripAnsicolors rest :=
  ⟨errorMessage_no_newline msg, stripAnsicolors_sgr params rest hp hK,
   stripAnsicolors.eq_2 rest⟩

/-- Witness for C8 (amended) at the concrete color code `ESC[31m`. -/
theorem C8_witness :
    (∀ a ∈ ['3', '1'], a ≠ '\n' ∧ a ≠ 'm') ∧
    (['3', '1'].head? ≠ some 'K') ∧
    ('\n' ∉ errorMessage ['o', 'k'] ∧
     stripAnsicolors ('\x1b' :: '[' :: (['3', '1'] ++ 'm' :: ['r'])) =
       stripAnsicolors ['r'] ∧
     stripAnsicolors ('\x1b' :: '[' :: 'K' :: ['r']) =
       stripAnsicolors ['r']) :=
  ⟨by decide, by decide,
   C8_amended_no_linesep_colors_stripped ['o', 'k'] ['3', '1'] ['r']
     (by decide) (by decide)⟩

/-- C9: every validation writes the message text to the fixed file
`commit_message`, overwriting the previous content; after a sequence of
validations the file holds the last message's text. -/
theorem C9_file_holds_last_message (c : Checker) (m : List Char)
    (s : FsState) (msgs : List (List Char)) (e : Nat) (lm : List Char)
    (h : msgs.getLast? = some lm) :
    (checkMessage c m s).2.file = some m ∧
    (processMessages c msgs (e, s)).2.file = some lm := by
  constructor
  · simp [checkMessage_eq]
  · rw [processMessages_eq]
    simp [h]

/-- Witness for C9 on a two-message sequence. -/
theorem C9_witness :
    (["a".data, "b".data] : List (List Char)).getLast? = some ("b".data) ∧
    ((checkMessage checkerPass ("a".data) emptyState).2.file =
        some ("a".data) ∧
     (processMessages checkerPass ["a".data, "b".data]
        (0, emptyState)).2.file = some ("b".data)) :=
  ⟨by decide,
   C9_file_holds_last_message checkerPass ("a".data) emptyState
     ["a".data, "b".data] 0 ("b".data) (by decide)⟩

/-- C10: a message is counted valid exactly when the checker's return code
is not strictly positive; in particular a negative return code (checker
killed by a signal) yields verdict `true` with no error line printed. -/
theorem C10_negative_returncode_is_success (c : Checker) (m : List Char)
    (s : FsState) :
    ((checkMessage c m s).1 = true ↔ c.returncode m ≤ 0) ∧
    (c.returncode m < 0 →
      (checkMessage c m s).1 = true ∧
      (checkMessage c m s).2.output = s.output) := by
  simp only [checkMessage_eq, msgValid, annotOf]
  constructor
  · split_ifs with h
    · simp
      omega
    · simp
      omega
  · intro hneg
    have hnp : ¬ c.returncode m > 0 := by omega
    simp [hnp]

/-- Witness for C10 with a checker that dies on signal 9. -/
theorem C10_witness :
    ((checkMessage checkerSignal ("x".data) emptyState).1 = true ↔
      checkerSignal.returncode ("x".data) ≤ 0) ∧
    checkerSignal.returncode ("x".data) < 0 ∧
    ((checkMessage checkerSignal ("x".data) emptyState).1 = true ∧
     (checkMessage checkerSignal ("x".data) emptyState).2.output =
       emptyState.output) :=
  ⟨(C10_negative_returncode_is_success checkerSignal ("x".data)
      emptyState).1,
   by decide,
   (C10_negative_returncode_is_success checkerSignal ("x".data)
      emptyState).2 (by decide)⟩

/-- Witness for C1 at a concrete failing run. -/
theorem C1_witness :
    ((mainRun checkerFail ("t".data) [] emptyState).1 = 0 ↔
      (msgValid checkerFail ("t".data) = true ∧
       ∀ m ∈ ([] : List (List Char)), msgValid checkerFail m = true)) ∧
    ((mainRun checkerFail ("t".data) [] emptyState).1 = 0 ∨
     (mainRun checkerFail ("t".data) [] emptyState).1 = 1) :=
  C1_exit_zero_iff_all_valid checkerFail ("t".data) [] emptyState

/-- Witness for C2 at a concrete two-message run. -/
theorem C2_witness :
    (mainRun checkerPass ("t".data) [("c1".data)] emptyState).1 =
      (if (("t".data) :: [("c1".data)]).countP
          (fun m => !msgValid checkerPass m) ≠ 0 then 1 else 0) ∧
    (mainRun checkerPass ("t".data) [("c1".data)] emptyState).2.output =
      emptyState.output ++
        ((("t".data) :: [("c1".data)]).map (annotOf checkerPass)).flatten ∧
    ((mainRun checkerPass ("t".data) [("c1".data)] emptyState).1 = 0 ↔
      (("t".data) :: [("c1".data)]).all (msgValid checkerPass) = true) :=
  C2_every_message_evaluated checkerPass ("t".data) [("c1".data)] emptyState

end Commisery
